import Mathlib

/-!
# Verification of the SST analyzer core

A shallow embedding, in Lean 4, of the handler-reference resolution engine of
the `sst-vscode-extension` repository (`packages/analyzer/src/lib`), together
with theorems settling the frozen claims about it.

Conventions of the embedding:

* JS strings are Lean `String`s (or `List Char` where character-level recursion
  is needed); machine integers do not occur in the modelled code.
* JS `number` similarity scores are modelled as `ℚ` (the modelled code divides
  small natural lengths and multiplies by 0.8; no rounding occurs at these
  magnitudes, so rational arithmetic is exact).
* Fallible operations return `Option`.
* The TypeScript AST is embedded as inductive types covering exactly the node
  shapes the modelled functions inspect; every other node shape is collapsed
  into an `other` constructor, which is sound because the modelled functions
  treat all such nodes by a single default branch.
* File-system walks (`FileScanner`) operate on an explicit directory-tree
  value; the process working directory (the only directory the degenerate
  upward root search ever checks) is passed as a directory value.
-/

namespace SSTAnalyzer

/-! ## String helpers (JS `includes`, `split("/")`, `lastIndexOf(".")`, `Set`) -/

/-- `substrList t s`: does the character list `t` occur as a contiguous
segment of `s`?  Models JS `s.includes(t)` (restricted to its argument order
`sBig.includes(tSmall)` via `jsIncludes`). -/
def substrList (t : List Char) : List Char → Bool
  | [] => t.isEmpty
  | c :: s => t.isPrefixOf (c :: s) || substrList t s

/-- JS `s.includes(t)`. -/
def jsIncludes (s t : String) : Bool :=
  substrList t.toList s.toList

/-- JS `str.split("/")` at the character-list level: splits on `'/'`,
keeping empty segments (so `"" ↦ [[]]`, `"a//b" ↦ [[a],[],[b]]`). -/
def splitOnSlash : List Char → List (List Char)
  | [] => [[]]
  | c :: cs =>
    match splitOnSlash cs with
    | [] => [[c]]
    | seg :: rest => if c = '/' then [] :: seg :: rest else (c :: seg) :: rest

/-- JS `[...new Set(xs)]`: deduplication keeping the first occurrence of each
element, in insertion order. -/
def jsSetDedupAux (seen : List String) : List String → List String
  | [] => []
  | x :: xs =>
    if x ∈ seen then jsSetDedupAux seen xs
    else x :: jsSetDedupAux (x :: seen) xs

/-- JS `[...new Set(xs)]` for string arrays. -/
def jsSetDedup (xs : List String) : List String :=
  jsSetDedupAux [] xs

/-- Split a character list at its **last** `'.'`:
`lastDotSplit "a.b.c" = some ("a.b", "c")`, `none` when no dot occurs.
Models `handlerPath.lastIndexOf(".")` followed by the two `substring` calls
in `validateHandlerPath`. -/
def lastDotSplitList : List Char → Option (List Char × List Char)
  | [] => none
  | c :: cs =>
    match lastDotSplitList cs with
    | some (l, r) => some (c :: l, r)
    | none => if c = '.' then some ([], cs) else none

/-- `lastDotSplit` on strings. -/
def lastDotSplit (s : String) : Option (String × String) :=
  match lastDotSplitList s.toList with
  | some (l, r) => some (⟨l⟩, ⟨r⟩)
  | none => none

/-! ## GlobMatcher (`fileScanner.ts`: `matchesPattern` / `matchParts` /
`matchSinglePart`)

`matchSinglePart` in the source compiles a segment by
`pattern.replace(/\*/g, ".*")` and runs an **unanchored** `RegExp.test`.
In the compiled pattern a `*` therefore matches any character sequence and a
literal `.` of the pattern matches any single character.  The embedding
interprets that token language directly.  (Pattern segments containing other
regex metacharacters are modelled as literal characters; none of the patterns
in the claims, nor the default include/exclude patterns, contain any.) -/

/-- One token of the per-segment pattern language. -/
inductive GTok where
  | star           -- from `*` (compiled to `.*`)
  | dot            -- a literal `.` in the glob (unescaped in the regex)
  | lit (c : Char) -- any other character
  deriving DecidableEq, Repr

/-- Compile one glob segment to its token list. -/
def compileSeg (p : String) : List GTok :=
  p.toList.map fun c =>
    if c = '*' then GTok.star else if c = '.' then GTok.dot else GTok.lit c

/-- Can the token list match some *prefix* of the character list? -/
def reMatch : List GTok → List Char → Bool
  | [], _ => true
  | GTok.star :: ts, s =>
    reMatch ts s ||
      (match s with
       | [] => false
       | _ :: s' => reMatch (GTok.star :: ts) s')
  | GTok.dot :: _, [] => false
  | GTok.dot :: ts, _ :: s' => reMatch ts s'
  | GTok.lit _ :: _, [] => false
  | GTok.lit c :: ts, d :: s' => c = d && reMatch ts s'
  termination_by ts s => (s.length, ts.length)

/-- Unanchored `RegExp.test`: try a match starting at every position. -/
def reTest (ts : List GTok) : List Char → Bool
  | [] => reMatch ts []
  | c :: s' => reMatch ts (c :: s') || reTest ts s'

/-- `matchSinglePart(filePart, pattern)` from `fileScanner.ts`. -/
def matchSinglePart (filePart pat : String) : Bool :=
  if pat = "*" then true
  else if pat.toList.contains '*' then reTest (compileSeg pat) filePart.toList
  else filePart = pat

/-- `matchParts(fileParts, patternParts, fileIndex, patternIndex)` from
`fileScanner.ts`, with the two indices replaced by the corresponding list
suffixes. -/
def matchParts : List String → List String → Bool
  | fileParts, [] => fileParts.isEmpty
  | [], p :: ps => (p :: ps).all (· = "**")
  | f :: fs, p :: ps =>
    if p = "**" then
      matchParts (f :: fs) ps || matchParts fs (p :: ps)
    else
      matchSinglePart f p && matchParts fs ps
  termination_by fileParts patternParts => fileParts.length + patternParts.length

/-- `matchesPattern(filePath, pattern)` from `fileScanner.ts`: normalize
backslashes in the pattern to slashes, split both on `/`, and run
`matchParts`. -/
def matchesPattern (filePath pattern : String) : Bool :=
  let normalizedPattern := pattern.toList.map fun c => if c = '\\' then '/' else c
  matchParts
    ((splitOnSlash filePath.toList).map fun l => String.mk l)
    ((splitOnSlash normalizedPattern).map fun l => String.mk l)

/-! ## Similarity scoring (`validator.ts`: `calculateSimilarity`,
`findSimilarPaths`) -/

/-- `calculateSimilarity(str1, str2)` from `validator.ts`.  The branches, in
source order: identical strings, an empty string, mutual containment
(`str1.includes(str2) || str2.includes(str1)`), and the character-set overlap
`|charset₁ ∩ charset₂| / max(|charset₁|, |charset₂|)`. -/
def calculateSimilarity (str1 str2 : String) : ℚ :=
  if str1 = str2 then 1
  else if str1.length = 0 || str2.length = 0 then 0
  else if jsIncludes str1 str2 || jsIncludes str2 str1 then
    max ((str2.length : ℚ) / (str1.length : ℚ)) ((str1.length : ℚ) / (str2.length : ℚ)) * (8 / 10)
  else
    let set1 := str1.toList.toFinset
    let set2 := str2.toList.toFinset
    (((set1 ∩ set2).card : ℚ)) / ((max set1.card set2.card : ℕ) : ℚ)

/-- Stable descending insertion for `(path, similarity)` pairs: the new
element goes after all existing elements of greater-or-equal similarity.
Together with the left fold in `sortBySimilarityDesc` this realizes the
stable descending sort performed by JS
`array.sort((a, b) => b.similarity - a.similarity)`. -/
def insertBySimDesc (x : String × ℚ) : List (String × ℚ) → List (String × ℚ)
  | [] => [x]
  | y :: ys => if x.2 ≤ y.2 then y :: insertBySimDesc x ys else x :: y :: ys

/-- Stable sort, descending by similarity. -/
def sortBySimilarityDesc (l : List (String × ℚ)) : List (String × ℚ) :=
  l.foldl (fun acc x => insertBySimDesc x acc) []

/-- `findSimilarPaths(target, availablePaths)` from `validator.ts`: score all
catalog paths (lower-cased), keep those with similarity above `0.4`, sort
descending by similarity, return the paths. -/
def findSimilarPaths (target : String) (availablePaths : List String) : List String :=
  let targetLower := target.toLower
  (sortBySimilarityDesc
      ((availablePaths.map fun p => (p, calculateSimilarity targetLower p.toLower)).filter
        fun item => (4 : ℚ) / 10 < item.2)).map
    fun item => item.1

/-! ## AST model

The embedding covers the node shapes inspected by `fileScanner.ts`
(`parseExportedFunctions`, `isFunction`, `isValidFunctionCall`) and
`astAnalyzer.ts` (`extractStringValue`, `resolveExpression`,
`resolveVariableValue`).  A source file is a list of top-level statements;
the TypeScript visitors recurse through all children in document order, and
on this statement-level fragment that traversal order coincides with the
list order. -/

/-- The callee of a call expression, as inspected by `isValidFunctionCall`:
a bare identifier, a property access (with the source text of the whole
property-access expression and the property name), or anything else. -/
inductive Callee where
  | ident (name : String)
  | propAccess (fullText : String) (propName : String)
  | otherCallee
  deriving DecidableEq, Repr

/-- An initializer expression of a variable declaration, covering the node
kinds distinguished by `isFunction` in `fileScanner.ts`.  String literals are
kept with their value because `resolveVariableValue` reads them. -/
inductive InitExpr where
  | strLit (s : String)      -- string literal
  | arrowFn                  -- arrow function
  | funcExpr                 -- function expression
  | methodLike               -- method / getter / setter declaration
  | call (c : Callee)        -- call expression
  | awaitCall (c : Callee)   -- `await <call>`
  | newE                     -- `new` expression
  | cond                     -- conditional (ternary) expression
  | otherInit                -- every other expression kind
  deriving DecidableEq, Repr

/-- One variable declaration (`NAME = <init>`); `init = none` models a
declaration without an initializer. -/
structure VarDecl where
  name : String
  init : Option InitExpr
  deriving DecidableEq, Repr

/-- A top-level statement, covering the node kinds inspected by
`parseExportedFunctions` and `resolveVariableValue`:
variable statements (with their `export` modifier), function declarations
(with `export` / `default` modifiers; `name = none` models an anonymous
default function), export assignments (`export default <expr>`, with a flag
recording whether the expression is a bare identifier), `export { A, B }`
clauses, and everything else. -/
inductive Stmt where
  | varStmt (isExport : Bool) (decls : List VarDecl)
  | funcDecl (isExport isDefault : Bool) (name : Option String)
  | exportAssign (isIdent : Bool)
  | exportClause (names : List String)
  | otherStmt
  deriving DecidableEq, Repr

/-- The fixed allow-list of identifier callees in `isValidFunctionCall`. -/
def handlerFactoryNames : List String :=
  ["handle", "middleware", "withMiddleware", "createHandler", "wrap", "createAWSHandler"]

/-- The fixed allow-list of property names in `isValidFunctionCall`. -/
def handlerPropertyNames : List String :=
  ["handle", "handler", "create", "build", "configure"]

/-- `isValidFunctionCall(callExpression)` from `fileScanner.ts`, keeping the
source's branch order: identifier callee in the factory allow-list; property
access whose property name is in the allow-list; property access whose text
looks like a resource-construct access (explicitly rejected); conservative
default `false`. -/
def isValidFunctionCall : Callee → Bool
  | Callee.ident name => name ∈ handlerFactoryNames
  | Callee.propAccess fullText propName =>
    if propName ∈ handlerPropertyNames then true
    else if jsIncludes fullText "sst.aws." || jsIncludes fullText ".get(" then false
    else false
  | Callee.otherCallee => false

/-- `isFunction(node)` from `fileScanner.ts`: the function-valued judgment
for an export's initializer expression. -/
def isFunction : InitExpr → Bool
  | InitExpr.arrowFn => true
  | InitExpr.funcExpr => true
  | InitExpr.methodLike => true
  | InitExpr.call c => isValidFunctionCall c
  | InitExpr.awaitCall c => isValidFunctionCall c
  | InitExpr.newE => false
  | InitExpr.cond => false
  | InitExpr.strLit _ => false
  | InitExpr.otherInit => false

/-- The names pushed by the `parseExportedFunctions` visitor for one
statement.  `export { NAME }` clauses fall through every branch of the
visitor (there is no `ExportDeclaration` case in the source), so they
contribute nothing. -/
def exportsOfStmt : Stmt → List String
  | Stmt.exportAssign isIdent => if isIdent then ["default"] else []
  | Stmt.varStmt isExport decls =>
    if isExport then
      decls.filterMap fun d =>
        match d.init with
        | some i => if isFunction i then some d.name else none
        | none => none
    else []
  | Stmt.funcDecl isExport isDefault name =>
    if isExport then
      if isDefault then ["default"]
      else match name with
        | some n => [n]
        | none => []
    else []
  | Stmt.exportClause _ => []
  | Stmt.otherStmt => []

/-- `parseExportedFunctions` from `fileScanner.ts`, on an already-parsed
file: collect the pushed names in document order, then deduplicate them in
insertion order (`[...new Set(exports)]`). -/
def parseExportedFunctions (file : List Stmt) : List String :=
  jsSetDedup (file.flatMap exportsOfStmt)

/-! ## Variable resolution and template evaluation (`astAnalyzer.ts`) -/

/-- The string-literal initializer values of the declarations of `name`
inside one statement, in declaration order. -/
def stmtStringDecls (name : String) : Stmt → List String
  | Stmt.varStmt _ decls =>
    decls.filterMap fun d =>
      match d.init with
      | some (InitExpr.strLit s) => if d.name = name then some s else none
      | _ => none
  | _ => []

/-- `resolveVariableValue(variableName, sourceFile)` from `astAnalyzer.ts`.
The visitor walks every statement in document order; for each variable
statement it takes the first declaration of `name` whose initializer is a
string literal (the inner `return` stops the per-statement loop) and
overwrites `resolvedValue` with it.  The `return` does **not** stop the
outer traversal, so a later statement overwrites an earlier hit. -/
def resolveVariableValue (name : String) (file : List Stmt) : Option String :=
  file.foldl
    (fun acc st =>
      match (stmtStringDecls name st).head? with
      | some v => some v
      | none => acc)
    none

/-- An expression embedded in a template-literal substitution span, covering
the kinds distinguished by `resolveExpression`. -/
inductive SpanExpr where
  | ident (name : String)
  | propAccess
  | strLit (s : String)
  | otherExpr
  deriving DecidableEq, Repr

/-- A handler-path expression, covering the three string-ish node kinds
accepted by the `extract*Context` guards plus the fall-through for any other
node (`extractStringValue` returns `null` there).  A template is its literal
head plus a list of spans, each an embedded expression followed by the
span's trailing literal text. -/
inductive PathExpr where
  | strLit (s : String)
  | templateNoSub (s : String)
  | template (head : String) (spans : List (SpanExpr × String))
  | nonString
  deriving DecidableEq, Repr

/-- `resolveExpression(expr, sourceFile)` from `astAnalyzer.ts`. -/
def resolveExpression (e : SpanExpr) (file : List Stmt) : Option String :=
  match e with
  | SpanExpr.ident name => resolveVariableValue name file
  | SpanExpr.propAccess => none
  | SpanExpr.strLit s => some s
  | SpanExpr.otherExpr => none

/-- `extractStringValue(node, sourceFile)` from `astAnalyzer.ts`: a string
literal yields its text; a template concatenates the head, then for each
span the resolved expression value (empty string when unresolvable) followed
by the span's literal text; a no-substitution template yields its text;
anything else yields `null`. -/
def extractStringValue (e : PathExpr) (file : List Stmt) : Option String :=
  match e with
  | PathExpr.strLit s => some s
  | PathExpr.template head spans =>
    some (spans.foldl
      (fun acc sp =>
        acc ++ ((resolveExpression sp.1 file).getD "") ++ sp.2)
      head)
  | PathExpr.templateNoSub s => some s
  | PathExpr.nonString => none

/-! ## Validator (`validator.ts`) -/

/-- `HandlerInfo` from the scanner: absolute path, project-root-relative path
without extension, exported function names. -/
structure HandlerInfo where
  filePath : String
  relativePath : String
  exportedFunctions : List String
  deriving DecidableEq, Repr

/-- The error kinds of `ValidationError.type`. -/
inductive ErrKind where
  | fileNotFound
  | functionNotFound
  | invalidFormat
  deriving DecidableEq, Repr

/-- `ValidationError` from `types.ts` (the fields written by
`validateHandlerPath`). -/
structure ValidationError where
  type : ErrKind
  message : String
  filePath : String
  handlerPath : String
  suggestions : Option (List String)
  deriving DecidableEq, Repr

/-- The construct type of a handler context. -/
inductive CtxType where
  | function
  | cron
  | queue
  | bucket
  | apigatewayv1
  deriving DecidableEq, Repr

/-- `SSTHandlerContext`, restricted to the fields the validator reads: the
construct type and the resolved `expectedPath` (`none` models `null`). -/
structure SSTHandlerContext where
  type : CtxType
  expectedPath : Option String
  deriving DecidableEq, Repr

/-- `new Set(availableHandlers.map(h => h.relativePath))` from
`validateFile`, as an insertion-ordered deduplicated list. -/
def availablePathsOf (handlers : List HandlerInfo) : List String :=
  jsSetDedup (handlers.map fun h => h.relativePath)

/-- The `invalid-format` error built by `validateHandlerPath`. -/
def invalidFormatError (filePath handlerPath : String) : ValidationError :=
  { type := ErrKind.invalidFormat
    message := "Invalid handler format: \"" ++ handlerPath ++
      "\". Expected format: \"path/to/file.functionName\""
    filePath := filePath
    handlerPath := handlerPath
    suggestions := none }

/-- `validateHandlerPath(filePath, context, availablePaths,
availableHandlers)` from `validator.ts`, taking the context's (non-null)
`expectedPath` directly.  Split on the last `.`; no dot → `invalid-format`;
left part absent from the catalog paths → `file-not-found` with up to three
ranked suggestions; function name absent from the entry's exports →
`function-not-found` with that entry's exports truncated to five; otherwise
no error. -/
def validateHandlerPath (filePath handlerPath : String)
    (handlers : List HandlerInfo) : Option ValidationError :=
  match lastDotSplit handlerPath with
  | none => some (invalidFormatError filePath handlerPath)
  | some (filePathPart, functionName) =>
    let availablePaths := availablePathsOf handlers
    if filePathPart ∉ availablePaths then
      some
        { type := ErrKind.fileNotFound
          message := "Handler file not found: \"" ++ filePathPart ++
            ".ts\". Make sure the file exists in your project."
          filePath := filePath
          handlerPath := handlerPath
          suggestions := some ((findSimilarPaths filePathPart availablePaths).take 3) }
    else
      match handlers.find? (fun h => h.relativePath = filePathPart) with
      | some handler =>
        if functionName ∉ handler.exportedFunctions then
          some
            { type := ErrKind.functionNotFound
              message := "Function \"" ++ functionName ++ "\" not found in \"" ++
                filePathPart ++ ".ts\". Available functions: " ++
                String.intercalate ", " handler.exportedFunctions
              filePath := filePath
              handlerPath := handlerPath
              suggestions := some (handler.exportedFunctions.take 5) }
        else none
      | none => none

/-- JS truthiness of `context.expectedPath`: `null` and the empty string are
falsy. -/
def truthyPath : Option String → Bool
  | none => false
  | some s => !(s = "")

/-- The per-context loop of `validateFile` from `validator.ts`: contexts with
a falsy `expectedPath` are skipped; for the rest, `validateHandlerPath` may
contribute one error.  (File reading and context extraction happen before
this loop in the source; the contexts are taken as input here.) -/
def validateFileCtxs (filePath : String) (contexts : List SSTHandlerContext)
    (handlers : List HandlerInfo) : List ValidationError :=
  contexts.filterMap fun context =>
    if truthyPath context.expectedPath then
      validateHandlerPath filePath (context.expectedPath.getD "") handlers
    else none

/-! ## StatisticsAnalyzer (`statisticsAnalyzer.ts`)

The usage map (`handlerUsages : Map<string, HandlerUsage>`) is modelled as an
insertion-ordered association list from handler path to usage count; the
location lists attached to each count are not modelled (no claim mentions
them).  `allHandlerPaths : Set<string>` shares the seeding order with the
map, so it is recovered as the map's key list after seeding. -/

/-- `Map.set`: overwrite in place if the key is present (keeping its
position, as JS `Map` does), otherwise append. -/
def mapSet (m : List (String × Nat)) (k : String) (v : Nat) : List (String × Nat) :=
  if m.any (fun kv => kv.1 = k) then
    m.map fun kv => if kv.1 = k then (k, v) else kv
  else m ++ [(k, v)]

/-- `Map.get`, as an association-list lookup. -/
def mapGet (m : List (String × Nat)) (k : String) : Option Nat :=
  (m.find? fun kv => kv.1 = k).map fun kv => kv.2

/-- JS `s.replace(/\.ts$/, "")`: drop a trailing `".ts"` when present
(character-list implementation of `endsWith`/`dropRight`). -/
def dropTsSuffix (s : String) : String :=
  let l := s.toList
  if ['.', 't', 's'].isSuffixOf l then String.mk (l.take (l.length - 3)) else s

/-- The seeding loop of `analyzeUsageStatistics`: every
`relativePath.exportedFunction` combination of the catalog enters the usage
map at count `0`. -/
def seedUsages (handlers : List HandlerInfo) : List (String × Nat) :=
  handlers.foldl
    (fun m h =>
      h.exportedFunctions.foldl
        (fun m func => mapSet m (dropTsSuffix h.relativePath ++ "." ++ func) 0)
        m)
    []

/-- `allHandlerPaths` after seeding: the key set of the seeded map, in
insertion order. -/
def allHandlerPaths (handlers : List HandlerInfo) : List String :=
  (seedUsages handlers).map fun kv => kv.1

/-- One step of the per-context counting loop: increment the referenced
path's counter, or create an entry at count `1` when the path is absent from
the map ("used but undeclared"). -/
def applyRef (m : List (String × Nat)) (p : String) : List (String × Nat) :=
  match mapGet m p with
  | some c => mapSet m p (c + 1)
  | none => mapSet m p 1

/-- The expected paths of the contexts that pass the `if
(context.expectedPath)` truthiness test, in processing order. -/
def truthyRefs (contexts : List (Option String)) : List String :=
  contexts.filterMap fun o =>
    match o with
    | some s => if s = "" then none else some s
    | none => none

/-- The usage map after seeding from the catalog and counting every truthy
context of every scanned file (`contexts` lists the `expectedPath` of each
context across all files, in processing order). -/
def usageMap (handlers : List HandlerInfo) (contexts : List (Option String)) :
    List (String × Nat) :=
  (truthyRefs contexts).foldl applyRef (seedUsages handlers)

/-- Stable descending insertion by usage count (the JS comparator
`(a, b) => b.usageCount - a.usageCount`). -/
def insertByCountDesc (x : String × Nat) :
    List (String × Nat) → List (String × Nat)
  | [] => [x]
  | y :: ys => if x.2 ≤ y.2 then y :: insertByCountDesc x ys else x :: y :: ys

/-- Stable sort, descending by usage count. -/
def sortByCountDesc (l : List (String × Nat)) : List (String × Nat) :=
  l.foldl (fun acc x => insertByCountDesc x acc) []

/-- `mostUsedHandlers`: usages with positive count, sorted descending by
count, truncated to the top 10. -/
def mostUsedHandlers (handlers : List HandlerInfo)
    (contexts : List (Option String)) : List (String × Nat) :=
  (sortByCountDesc ((usageMap handlers contexts).filter fun h => 0 < h.2)).take 10

/-- `unusedHandlers`: catalog-derived paths whose final count is exactly 0. -/
def unusedHandlers (handlers : List HandlerInfo)
    (contexts : List (Option String)) : List String :=
  (allHandlerPaths handlers).filter fun p =>
    mapGet (usageMap handlers contexts) p = some 0

/-! ## ProjectFileScanner (`fileScanner.ts`: root discovery and
`scanHandlers`)

The file system is an explicit directory tree whose files carry their
already-parsed AST (`List Stmt`).  The upward fallback of the root search is
a single check of the process working directory: the source first overwrites
`this.workspaceRoot` with the downward result `|| ""`, so the upward loop
starts from `""`, and since `path.dirname("")` is `"."` it performs exactly
one `existsSync` check at `"."` (the process CWD) and then terminates.  The
CWD's contents are therefore passed as one directory value. -/

mutual
/-- A directory: its list of entries. -/
inductive FSDir where
  | mk (entries : List FSEntry)

/-- A directory entry: a named subdirectory or a named source file with its
parsed AST. -/
inductive FSEntry where
  | dir (name : String) (d : FSDir)
  | file (name : String) (ast : List Stmt)
end

/-- The entries of a directory. -/
def FSDir.entries : FSDir → List FSEntry
  | FSDir.mk es => es

/-- Does the directory's entry list contain a file of the given name?
Models `fs.existsSync(path.join(dir, name))` for a plain file. -/
def containsFile (entries : List FSEntry) (name : String) : Bool :=
  entries.any fun e =>
    match e with
    | FSEntry.file n _ => n = name
    | FSEntry.dir _ _ => false

/-- The directory-walk skip rule used throughout `fileScanner.ts`: descend
only into entries that are directories whose name does not start with `.`
and is not `node_modules`. -/
def visitedDirName (name : String) : Bool :=
  !(name.startsWith ".") && !(name = "node_modules")

mutual
/-- `findSstConfig(dir)` from `findworkspaceRoot`: if `sst.config.ts` exists
here this directory is the root; otherwise search the non-skipped
subdirectories depth-first, in entry order. -/
def findSstConfigDir : FSDir → Option FSDir
  | FSDir.mk entries =>
    if containsFile entries "sst.config.ts" then some (FSDir.mk entries)
    else findSstConfigInSubdirs entries

/-- The subdirectory loop of `findSstConfig`. -/
def findSstConfigInSubdirs : List FSEntry → Option FSDir
  | [] => none
  | FSEntry.dir name d :: rest =>
    if visitedDirName name then
      match findSstConfigDir d with
      | some found => some found
      | none => findSstConfigInSubdirs rest
    else findSstConfigInSubdirs rest
  | FSEntry.file _ _ :: rest => findSstConfigInSubdirs rest
end

/-- `findworkspaceRoot` from `fileScanner.ts`: first the recursive downward
search from the workspace directory.  If that fails, the source sets
`this.workspaceRoot = ""` and runs the upward loop from it; as
`path.dirname("") = "."`, the loop's single iteration checks
`existsSync("./sst.config.ts")` — the process CWD — and stops (it never
visits the workspace's actual parent directories).  When that check also
fails the function returns the falsy `""`, modelled as `none`. -/
def findworkspaceRoot (workspace : FSDir) (cwd : FSDir) : Option FSDir :=
  match findSstConfigDir workspace with
  | some d => some d
  | none =>
    if containsFile cwd.entries "sst.config.ts" then some cwd else none

/-- The `include` / `exclude` pattern arrays of a loaded `tsconfig.json`;
either field may be absent.  (`loadTSConfig` parses the file leniently; a
parse failure just leaves the configuration `null`, which is the `none` case
of the `Option TSConfig` parameter below.) -/
structure TSConfig where
  includePatterns : Option (List String)
  excludePatterns : Option (List String)

/-- `shouldIncludeFile(filePath)` from `fileScanner.ts`, on the root-relative
slash-normalized path: declaration files and non-`.ts` files are rejected;
exclude patterns are checked first and short-circuit to exclusion; if include
patterns exist the file must match one of them; with no configuration (or no
include list) the file is included by default. -/
def shouldIncludeFile (cfg : Option TSConfig) (relativePath : String) : Bool :=
  if relativePath.endsWith ".d.ts" then false
  else if !(relativePath.endsWith ".ts") then false
  else
    let excluded :=
      match cfg with
      | some c =>
        match c.excludePatterns with
        | some patterns => patterns.any fun pat => matchesPattern relativePath pat
        | none => false
      | none => false
    if excluded then false
    else
      match cfg with
      | some c =>
        match c.includePatterns with
        | some patterns => patterns.any fun pat => matchesPattern relativePath pat
        | none => true
      | none => true

/-- Join root-relative path segments with `/`. -/
def joinSegs (segs : List String) : String :=
  String.intercalate "/" segs

mutual
/-- `scanDirectory(dir, handlers)` from `fileScanner.ts`, accumulating into
the result instead of mutating an array.  `prefixSegs` is the root-relative
path of `dir` as segments.  Directory entries are walked in order; skipped
directories contribute nothing; a `.ts` file that is not a `.d.ts` file and
passes `shouldIncludeFile` contributes a `HandlerInfo` when it has at least
one exported function. -/
def scanDirectory (cfg : Option TSConfig) (prefixSegs : List String) :
    FSDir → List HandlerInfo
  | FSDir.mk entries => scanEntries cfg prefixSegs entries

/-- The entry loop of `scanDirectory`. -/
def scanEntries (cfg : Option TSConfig) (prefixSegs : List String) :
    List FSEntry → List HandlerInfo
  | [] => []
  | FSEntry.dir name d :: rest =>
    (if visitedDirName name then scanDirectory cfg (prefixSegs ++ [name]) d else []) ++
      scanEntries cfg prefixSegs rest
  | FSEntry.file name ast :: rest =>
    (if name.endsWith ".ts" && !(name.endsWith ".d.ts") then
        let relativePath := joinSegs (prefixSegs ++ [name])
        if shouldIncludeFile cfg relativePath then
          let exportedFunctions := parseExportedFunctions ast
          if exportedFunctions ≠ [] then
            [{ filePath := relativePath
               relativePath := dropTsSuffix relativePath
               exportedFunctions := exportedFunctions }]
          else []
        else []
      else []) ++
      scanEntries cfg prefixSegs rest
end

/-- `scanHandlers()` from `fileScanner.ts`: locate the workspace root
(downward search, then the single CWD check of the degenerate upward loop);
when no root is found (`findworkspaceRoot` yields the falsy `""`) return the
empty list; otherwise walk the root directory accumulating `HandlerInfo`
entries.  The `tsconfig.json` contents loaded by `loadTSConfig` are passed
as `cfg`. -/
def scanHandlers (workspace : FSDir) (cwd : FSDir)
    (cfg : Option TSConfig) : List HandlerInfo :=
  match findworkspaceRoot workspace cwd with
  | none => []
  | some root => scanDirectory cfg [] root

/-! ## Claims -/

/-- Claim C5: the glob matcher treats a `**` pattern segment as consuming
zero or more path segments via backtracking:
`matches("a/b/c.ts", "a/**/*.ts") = true`,
`matches("a/b.ts", "**/*.test.ts") = false`,
`matches("x/y/z.ts", "**") = true`, and `a/**/b` matches `a/b`, `a/x/b` and
`a/x/y/b`. -/
theorem glob_doubleStar_backtracks :
    matchesPattern "a/b/c.ts" "a/**/*.ts" = true ∧
    matchesPattern "a/b.ts" "**/*.test.ts" = false ∧
    matchesPattern "x/y/z.ts" "**" = true ∧
    matchesPattern "a/b" "a/**/b" = true ∧
    matchesPattern "a/x/b" "a/**/b" = true ∧
    matchesPattern "a/x/y/b" "a/**/b" = true := by
  refine ⟨?_, ?_, ?_, ?_, ?_, ?_⟩ <;>
    simp [matchesPattern, matchParts, matchSinglePart, reTest, reMatch, compileSeg, splitOnSlash]

/-- Claim C6: template-literal handler-path evaluation concatenates the
literal head, then for each substitution span the resolved expression value
(or the empty string when unresolvable) followed by the span's trailing
literal text.  For a file declaring `const pathName = "details"` and the
template `` `functions/${pathName}.handler` `` the extracted path is exactly
`"functions/details.handler"`; an unresolvable interpolation contributes the
empty string; a two-variable template concatenates both resolved values. -/
theorem extractStringValue_template_concat :
    extractStringValue
        (PathExpr.template "functions/" [(SpanExpr.ident "pathName", ".handler")])
        [Stmt.varStmt false [⟨"pathName", some (InitExpr.strLit "details")⟩]] =
      some "functions/details.handler" ∧
    extractStringValue
        (PathExpr.template "functions/" [(SpanExpr.ident "missing", ".handler")]) [] =
      some "functions/.handler" ∧
    extractStringValue
        (PathExpr.template "" [(SpanExpr.ident "basePath", "/"), (SpanExpr.ident "handlerName", ".handler")])
        [Stmt.varStmt false [⟨"basePath", some (InitExpr.strLit "functions")⟩],
         Stmt.varStmt false [⟨"handlerName", some (InitExpr.strLit "processor")⟩]] =
      some "functions/processor.handler" := by
  refine ⟨rfl, rfl, rfl⟩

/-- A character list without a `'.'` has no last-dot split. -/
theorem lastDotSplitList_eq_none (l : List Char) (h : '.' ∉ l) :
    lastDotSplitList l = none := by
  induction l with
  | nil => rfl
  | cons c cs ih =>
    have hc : ¬ c = '.' := fun he => h (by simp [he])
    have hcs : '.' ∉ cs := fun hm => h (List.mem_cons_of_mem _ hm)
    simp [lastDotSplitList, ih hcs, hc]

/-- Claim C1: per-context validation of a non-null handler path containing no
`'.'` produces exactly one error, of kind `invalid-format` (never
`file-not-found`, never `function-not-found`), for every catalog; and at the
`validateFile` level a context carrying such a (non-empty) path contributes
exactly that one error. -/
theorem validate_no_dot_invalid_format (filePath p : String)
    (handlers : List HandlerInfo) (h : '.' ∉ p.toList) :
    validateHandlerPath filePath p handlers = some (invalidFormatError filePath p) ∧
    (invalidFormatError filePath p).type = ErrKind.invalidFormat ∧
    (p ≠ "" → ∀ t, validateFileCtxs filePath [⟨t, some p⟩] handlers =
      [invalidFormatError filePath p]) := by
  have hsplit : lastDotSplit p = none := by
    have h2 : lastDotSplitList p.data = none := lastDotSplitList_eq_none p.toList h
    simp [lastDotSplit, h2]
  refine ⟨?_, rfl, ?_⟩
  · simp [validateHandlerPath, hsplit]
  · intro hp t
    simp [validateFileCtxs, truthyPath, hp, validateHandlerPath, hsplit]

/-- Witness for C1 at the spec's boundary example `"invalid-format-string"`. -/
theorem validate_no_dot_invalid_format_witness :
    ('.' ∉ "invalid-format-string".toList) ∧
    validateHandlerPath "infra/api.ts" "invalid-format-string" [] =
      some (invalidFormatError "infra/api.ts" "invalid-format-string") :=
  ⟨by decide,
   (validate_no_dot_invalid_format "infra/api.ts" "invalid-format-string" [] (by decide)).1⟩

/-- Claim C8: a context whose `expectedPath` is the empty string is skipped
by `validateFile` exactly like a `null` path (the JS truthiness test
`if (context.expectedPath)` rejects `""`), even though `""` contains no `'.'`
separator; and such a context is reachable, e.g. from a template literal
consisting solely of an unresolvable interpolation. -/
theorem validateFile_skips_empty_path (filePath : String)
    (handlers : List HandlerInfo) (t : CtxType) :
    validateFileCtxs filePath [⟨t, some ""⟩] handlers = [] ∧
    validateFileCtxs filePath [⟨t, none⟩] handlers = [] ∧
    extractStringValue (PathExpr.template "" [(SpanExpr.ident "missing", "")]) [] =
      some "" := by
  refine ⟨?_, ?_, rfl⟩ <;> simp [validateFileCtxs, truthyPath]

/-- Claim C9: the similarity score is symmetric in every branch — the
identical-strings branch, the empty-string branch, the mutual-containment
branch (`max(l₂/l₁, l₁/l₂) · 0.8`), and the character-set-overlap branch. -/
theorem calculateSimilarity_symm (a b : String) :
    calculateSimilarity a b = calculateSimilarity b a := by
  simp only [calculateSimilarity]
  by_cases hab : a = b
  · subst hab; rfl
  · rw [if_neg hab, if_neg (Ne.symm hab), Bool.or_comm (jsIncludes a b),
      Bool.or_comm (decide (a.length = 0))]
    by_cases h0 : (decide (b.length = 0) || decide (a.length = 0)) = true
    · rw [if_pos h0, if_pos h0]
    · rw [if_neg h0, if_neg h0]
      by_cases hinc : (jsIncludes b a || jsIncludes a b) = true
      · rw [if_pos hinc, if_pos hinc, max_comm]
      · rw [if_neg hinc, if_neg hinc, Finset.inter_comm, Nat.max_comm]

/-- A contiguous-substring occurrence bounds the length. -/
theorem substrList_length_le {t s : List Char} (h : substrList t s = true) :
    t.length ≤ s.length := by
  induction s with
  | nil =>
    simp [substrList, List.isEmpty_iff] at h
    simp [h]
  | cons c s ih =>
    simp only [substrList, Bool.or_eq_true] at h
    rcases h with h | h
    · exact (List.isPrefixOf_iff_prefix.mp h).length_le
    · exact (ih h).trans (by simp)

/-- A contiguous substring of equal length is the whole string. -/
theorem substrList_eq_of_length {t s : List Char} (h : substrList t s = true)
    (hl : t.length = s.length) : t = s := by
  induction s with
  | nil => exact List.eq_nil_of_length_eq_zero hl
  | cons c s ih =>
    simp only [substrList, Bool.or_eq_true] at h
    rcases h with h | h
    · exact (List.isPrefixOf_iff_prefix.mp h).eq_of_length hl
    · have := substrList_length_le h
      simp only [List.length_cons] at hl
      omega

/-- In the containment branch (`a` strictly shorter than `x` and contained
in it), the similarity score evaluates to `(len x / len a) · 0.8`. -/
theorem calculateSimilarity_containment (a x : String)
    (hx : jsIncludes x a = true) (hnx : a ≠ x)
    (h0 : 0 < a.length) (hlx : a.length < x.length) :
    calculateSimilarity a x = (x.length : ℚ) / (a.length : ℚ) * (8 / 10) := by
  have hxpos : 0 < x.length := lt_trans h0 hlx
  have lapos : (0 : ℚ) < a.length := by exact_mod_cast h0
  simp only [calculateSimilarity, if_neg hnx, hx, Bool.or_true, if_true,
    Nat.pos_iff_ne_zero.mp h0, Nat.pos_iff_ne_zero.mp hxpos, decide_eq_true_eq]
  have hxq : (0 : ℚ) < x.length := by exact_mod_cast hxpos
  have hle : (a.length : ℚ) ≤ x.length := by exact_mod_cast le_of_lt hlx
  have hmax : (a.length : ℚ) / x.length ≤ (x.length : ℚ) / a.length :=
    le_trans ((div_le_one hxq).mpr hle) ((one_le_div lapos).mpr hle)
  rw [max_eq_left hmax]
  simp [Nat.pos_iff_ne_zero.mp h0, Nat.pos_iff_ne_zero.mp hxpos]

/-- Claim C4 (counterexample): with `a = "ab"` a proper substring of both
`b = "abcdef"` and `b' = "abc"`, and `len a ≤ len b' < len b`, the claimed
inequality `calculateSimilarity a b < calculateSimilarity a b'` fails: the
containment branch `max(lenB/lenA, lenA/lenB) · 0.8` **grows** with the
longer container (`2.4` versus `1.2` here). -/
theorem containment_scoring_cex :
    jsIncludes "abcdef" "ab" = true ∧ jsIncludes "abc" "ab" = true ∧
    "ab" ≠ "abcdef" ∧ "ab" ≠ "abc" ∧
    "ab".length ≤ "abc".length ∧ "abc".length < "abcdef".length ∧
    ¬ calculateSimilarity "ab" "abcdef" < calculateSimilarity "ab" "abc" := by
  refine ⟨by decide, by decide, by decide, by decide, by decide, by decide, ?_⟩
  rw [calculateSimilarity_containment "ab" "abcdef" (by decide) (by decide)
      (by decide) (by decide),
    calculateSimilarity_containment "ab" "abc" (by decide) (by decide)
      (by decide) (by decide),
    show "ab".length = 2 from rfl, show "abc".length = 3 from rfl,
    show "abcdef".length = 6 from rfl]
  norm_num

/-- Claim C4 (amended): in the containment branch, a string fully contained
in a much longer string scores **higher**, not lower, than a near-equal-length
containment: for `a` a proper substring of both `c` and `b` with
`0 < len a ≤ len c < len b`, `calculateSimilarity a c < calculateSimilarity a b`. -/
theorem containment_scores_grow_with_container (a c b : String)
    (hca : jsIncludes c a = true) (hba : jsIncludes b a = true)
    (hac : a ≠ c) (hab : a ≠ b)
    (h0 : 0 < a.length) (h1 : a.length ≤ c.length) (h2 : c.length < b.length) :
    calculateSimilarity a c < calculateSimilarity a b := by
  have hlen_ac : a.length < c.length := by
    rcases lt_or_eq_of_le h1 with h | h
    · exact h
    · exfalso
      apply hac
      have hdata : a.toList = c.toList :=
        substrList_eq_of_length hca (show a.toList.length = c.toList.length from h)
      cases a
      cases c
      exact congrArg String.mk (by simpa using hdata)
  have lapos : (0 : ℚ) < a.length := by exact_mod_cast h0
  rw [calculateSimilarity_containment a c hca hac h0 hlen_ac,
    calculateSimilarity_containment a b hba hab h0 (lt_trans hlen_ac h2)]
  have hlt : (c.length : ℚ) < b.length := by exact_mod_cast h2
  gcongr

/-- Witness for the amended C4 at `a = "ab"`, `c = "abc"`, `b = "abcdef"`. -/
theorem containment_scores_grow_with_container_witness :
    calculateSimilarity "ab" "abc" < calculateSimilarity "ab" "abcdef" :=
  containment_scores_grow_with_container "ab" "abc" "abcdef"
    (by decide) (by decide) (by decide) (by decide) (by decide) (by decide) (by decide)

/-- `getLast?` of a cons: the last element of the tail, or the head when the
tail is empty. -/
theorem getLast?_cons_eq {α : Type} (b : α) (l : List α) :
    (b :: l).getLast? =
      match l.getLast? with
      | some w => some w
      | none => some b := by
  cases l with
  | nil => rfl
  | cons c l =>
    rw [List.getLast?_cons_cons]
    cases h : (c :: l).getLast? with
    | some w => rfl
    | none => exact absurd (List.getLast?_eq_none_iff.mp h) (by simp)

/-- The resolution fold keeps the **last** hit: folding the per-statement
resolution over the file from an arbitrary accumulator yields the last
per-statement hit, or the accumulator when there is none. -/
theorem resolve_foldl_eq (name : String) (file : List Stmt) (acc : Option String) :
    file.foldl
        (fun acc st =>
          match (stmtStringDecls name st).head? with
          | some v => some v
          | none => acc)
        acc =
      match (file.filterMap fun st => (stmtStringDecls name st).head?).getLast? with
      | some v => some v
      | none => acc := by
  induction file generalizing acc with
  | nil => rfl
  | cons st rest ih =>
    rw [List.foldl_cons, ih, List.filterMap_cons]
    cases h1 : (stmtStringDecls name st).head? with
    | none => rfl
    | some v =>
      rw [getLast?_cons_eq]
      cases h2 : (rest.filterMap fun st => (stmtStringDecls name st).head?).getLast? <;> rfl

/-- For a list of length at most one, `head?.toList` is the list itself. -/
theorem headOpt_toList_of_short {α : Type} (l : List α) (h : l.length ≤ 1) :
    l.head?.toList = l := by
  cases l with
  | nil => rfl
  | cons a l =>
    cases l with
    | nil => rfl
    | cons b l => simp at h

/-- Claim C2 (counterexample): with two `const a = …` declarations of string
literals `"x"` then `"y"`, the resolved value is `"y"` — the **last**
declaration in document order — not the initial `"x"` the claim requires
(the `return` inside the visitor only exits one `visit` call, so later
statements overwrite earlier hits). -/
theorem resolveVariableValue_first_cex :
    resolveVariableValue "a"
        [Stmt.varStmt false [⟨"a", some (InitExpr.strLit "x")⟩],
         Stmt.varStmt false [⟨"a", some (InitExpr.strLit "y")⟩]] ≠ some "x" ∧
    resolveVariableValue "a"
        [Stmt.varStmt false [⟨"a", some (InitExpr.strLit "x")⟩],
         Stmt.varStmt false [⟨"a", some (InitExpr.strLit "y")⟩]] = some "y" := by
  refine ⟨?_, rfl⟩
  decide

/-- Claim C2 (amended): when every statement contains at most one matching
string-literal declaration of `name` (the claim's scenario of separate
declarations), the resolved value is the initializer of the **last** such
declaration in document order. -/
theorem resolveVariableValue_last_decl (name : String) (file : List Stmt)
    (huniq : ∀ st ∈ file, (stmtStringDecls name st).length ≤ 1) :
    resolveVariableValue name file =
      (file.flatMap (stmtStringDecls name)).getLast? := by
  have hflat : (file.filterMap fun st => (stmtStringDecls name st).head?) =
      file.flatMap (stmtStringDecls name) := by
    induction file with
    | nil => rfl
    | cons st rest ih =>
      have hst := huniq st (List.mem_cons_self st rest)
      have hrest : ∀ s ∈ rest, (stmtStringDecls name s).length ≤ 1 :=
        fun s hs => huniq s (List.mem_cons_of_mem st hs)
      rw [List.filterMap_cons, List.flatMap_cons, ← ih hrest,
        ← headOpt_toList_of_short (stmtStringDecls name st) hst]
      cases (stmtStringDecls name st).head? <;> rfl
  rw [resolveVariableValue, resolve_foldl_eq, hflat]
  cases (file.flatMap (stmtStringDecls name)).getLast? <;> rfl

/-- Witness for the amended C2 at the counterexample file: the resolved value
is the last declaration's string literal. -/
theorem resolveVariableValue_last_decl_witness :
    resolveVariableValue "a"
        [Stmt.varStmt false [⟨"a", some (InitExpr.strLit "x")⟩],
         Stmt.varStmt false [⟨"a", some (InitExpr.strLit "y")⟩]] = some "y" := by
  rw [resolveVariableValue_last_decl "a"
    [Stmt.varStmt false [⟨"a", some (InitExpr.strLit "x")⟩],
     Stmt.varStmt false [⟨"a", some (InitExpr.strLit "y")⟩]] (by decide)]
  rfl

/-- Claim C3 (counterexample): a file consisting of the re-export clause
`export { foo }` yields an exported-names scan result that does **not**
contain `"foo"` — the `parseExportedFunctions` visitor has no
`ExportDeclaration` branch, so named export clauses fall through. -/
theorem exportClause_names_not_scanned_cex :
    "foo" ∉ parseExportedFunctions [Stmt.exportClause ["foo"]] := by
  decide

/-- Claim C3 (amended): `export { NAME }` re-export clauses contribute
nothing to the exported-names scan: inserting such a clause anywhere in a
file leaves `parseExportedFunctions` unchanged, so a clause element appears
in the result only if another recognized export form contributes it. -/
theorem parseExportedFunctions_ignores_exportClause
    (pre post : List Stmt) (names : List String) :
    parseExportedFunctions (pre ++ Stmt.exportClause names :: post) =
      parseExportedFunctions (pre ++ post) := by
  simp [parseExportedFunctions, List.flatMap_append, List.flatMap_cons, exportsOfStmt]

/-- `mapSet` preserves key membership. -/
theorem mapSet_mem_keys {m : List (String × Nat)} {p : String}
    (hp : p ∈ m.map Prod.fst) (k : String) (v : Nat) :
    p ∈ (mapSet m k v).map Prod.fst := by
  unfold mapSet
  split
  · have : ((m.map fun kv => if kv.1 = k then (k, v) else kv).map Prod.fst) =
        m.map Prod.fst := by
      rw [List.map_map]
      refine List.map_congr_left ?_
      intro kv _
      by_cases h : kv.1 = k <;> simp [h]
    rw [this]
    exact hp
  · rw [List.map_append]
    exact List.mem_append_left _ hp

/-- `applyRef` preserves key membership. -/
theorem applyRef_mem_keys {m : List (String × Nat)} {p : String}
    (hp : p ∈ m.map Prod.fst) (q : String) :
    p ∈ (applyRef m q).map Prod.fst := by
  unfold applyRef
  cases mapGet m q <;> exact mapSet_mem_keys hp _ _

/-- Folding `applyRef` preserves key membership. -/
theorem foldl_applyRef_mem_keys (refs : List String) {m : List (String × Nat)}
    {p : String} (hp : p ∈ m.map Prod.fst) :
    p ∈ (refs.foldl applyRef m).map Prod.fst := by
  induction refs generalizing m with
  | nil => exact hp
  | cons q refs ih => exact ih (applyRef_mem_keys hp q)

/-- `mapSet` with a key other than `p` preserves "every entry keyed `p` has
count zero". -/
theorem mapSet_preserves_zero_at {m : List (String × Nat)} {p k : String}
    (hk : k ≠ p) (hm : ∀ c, (p, c) ∈ m → c = 0) (v : Nat) :
    ∀ c, (p, c) ∈ mapSet m k v → c = 0 := by
  intro c hc
  unfold mapSet at hc
  split at hc
  · obtain ⟨kv, hkv, he⟩ := List.mem_map.mp hc
    by_cases h : kv.1 = k
    · rw [if_pos h] at he
      exact absurd (congrArg Prod.fst he) (by simpa using hk)
    · rw [if_neg h] at he
      exact hm c (he ▸ hkv)
  · rcases List.mem_append.mp hc with h | h
    · exact hm c h
    · simp at h
      exact absurd h.1.symm hk

/-- `applyRef` on a path other than `p` preserves "every entry keyed `p` has
count zero". -/
theorem applyRef_preserves_zero_at {m : List (String × Nat)} {p q : String}
    (hq : q ≠ p) (hm : ∀ c, (p, c) ∈ m → c = 0) :
    ∀ c, (p, c) ∈ applyRef m q → c = 0 := by
  unfold applyRef
  cases mapGet m q <;> exact mapSet_preserves_zero_at hq hm _

/-- Folding `applyRef` over paths other than `p` preserves "every entry keyed
`p` has count zero". -/
theorem foldl_applyRef_preserves_zero_at (refs : List String)
    {m : List (String × Nat)} {p : String} (href : ∀ q ∈ refs, q ≠ p)
    (hm : ∀ c, (p, c) ∈ m → c = 0) :
    ∀ c, (p, c) ∈ refs.foldl applyRef m → c = 0 := by
  induction refs generalizing m with
  | nil => exact hm
  | cons q refs ih =>
    exact ih (fun r hr => href r (List.mem_cons_of_mem q hr))
      (applyRef_preserves_zero_at (href q (List.mem_cons_self q refs)) hm)

/-- Every value of a `mapSet`-with-zero result is zero when every value of
the input is. -/
theorem mapSet_zero_values {m : List (String × Nat)}
    (hm : ∀ kv ∈ m, kv.2 = 0) (k : String) :
    ∀ kv ∈ mapSet m k 0, kv.2 = 0 := by
  intro kv hkv
  unfold mapSet at hkv
  split at hkv
  · obtain ⟨kv0, hkv0, he⟩ := List.mem_map.mp hkv
    by_cases h : kv0.1 = k
    · rw [if_pos h] at he
      simp [← he]
    · rw [if_neg h] at he
      exact he ▸ hm kv0 hkv0
  · rcases List.mem_append.mp hkv with h | h
    · exact hm kv h
    · simp at h
      simp [h]

/-- Every value of the inner seeding fold is zero. -/
theorem innerSeed_zero_values (f : String → String) (funcs : List String)
    {m : List (String × Nat)} (hm : ∀ kv ∈ m, kv.2 = 0) :
    ∀ kv ∈ funcs.foldl (fun m func => mapSet m (f func) 0) m, kv.2 = 0 := by
  induction funcs generalizing m with
  | nil => exact hm
  | cons func funcs ih => exact ih (mapSet_zero_values hm (f func))

/-- Every value of the seeded usage map is zero. -/
theorem seedUsages_zero_values (handlers : List HandlerInfo) :
    ∀ kv ∈ seedUsages handlers, kv.2 = 0 := by
  unfold seedUsages
  generalize hgen : ([] : List (String × Nat)) = m0
  have h0 : ∀ kv ∈ m0, kv.2 = 0 := by simp [← hgen]
  clear hgen
  induction handlers generalizing m0 with
  | nil => exact h0
  | cons h handlers ih =>
    exact ih _ (innerSeed_zero_values _ h.exportedFunctions h0)

/-- A key of a map all of whose `p`-keyed entries have count zero looks up
to `some 0`. -/
theorem mapGet_eq_some_zero {m : List (String × Nat)} {p : String}
    (hkey : p ∈ m.map Prod.fst) (hm : ∀ c, (p, c) ∈ m → c = 0) :
    mapGet m p = some 0 := by
  have hex : ∃ kv ∈ m, kv.1 = p := by
    obtain ⟨kv, hkv, he⟩ := List.mem_map.mp hkey
    exact ⟨kv, hkv, he⟩
  have hsome : (m.find? fun kv => kv.1 = p).isSome := by
    rw [List.find?_isSome]
    obtain ⟨kv, hkv, he⟩ := hex
    exact ⟨kv, hkv, by simp [he]⟩
  obtain ⟨kv, hfind⟩ := Option.isSome_iff_exists.mp hsome
  have hkv : kv ∈ m := List.mem_of_find?_eq_some hfind
  have hkey2 : kv.1 = p := by simpa using List.find?_some hfind
  have hval : kv.2 = 0 := hm kv.2 (by rw [← hkey2]; exact hkv)
  unfold mapGet
  rw [hfind]
  simp [hval]

/-- Membership in a stable count-descending insertion comes from the
inserted element or the original list. -/
theorem insertByCountDesc_mem {e x : String × Nat} {l : List (String × Nat)}
    (h : e ∈ insertByCountDesc x l) : e = x ∨ e ∈ l := by
  induction l with
  | nil => simpa [insertByCountDesc] using h
  | cons y ys ih =>
    unfold insertByCountDesc at h
    split at h
    · rcases List.mem_cons.mp h with h | h
      · exact Or.inr (h ▸ List.mem_cons_self y ys)
      · rcases ih h with h | h
        · exact Or.inl h
        · exact Or.inr (List.mem_cons_of_mem y h)
    · rcases List.mem_cons.mp h with h | h
      · exact Or.inl h
      · exact Or.inr h

/-- Membership in the count-descending sort comes from the input list. -/
theorem sortByCountDesc_mem {e : String × Nat} {l : List (String × Nat)}
    (h : e ∈ sortByCountDesc l) : e ∈ l := by
  unfold sortByCountDesc at h
  have haux : ∀ (l : List (String × Nat)) (acc : List (String × Nat)),
      e ∈ l.foldl (fun acc x => insertByCountDesc x acc) acc → e ∈ acc ∨ e ∈ l := by
    intro l
    induction l with
    | nil => exact fun acc h => Or.inl h
    | cons x xs ih =>
      intro acc h
      rcases ih _ h with h | h
      · rcases insertByCountDesc_mem h with h | h
        · exact Or.inr (h ▸ List.mem_cons_self x xs)
        · exact Or.inl h
      · exact Or.inr (List.mem_cons_of_mem x h)
  rcases haux l [] h with h | h
  · simp at h
  · exact h

/-- A member of `truthyRefs contexts` occurs in `contexts` as `some` of
itself. -/
theorem mem_truthyRefs {q : String} {contexts : List (Option String)}
    (h : q ∈ truthyRefs contexts) : some q ∈ contexts := by
  unfold truthyRefs at h
  obtain ⟨o, ho, he⟩ := List.mem_filterMap.mp h
  cases o with
  | none => simp at he
  | some s =>
    by_cases hs : s = "" <;> simp [hs] at he
    exact he ▸ ho

/-- Claim C7: a catalog-derived handler path referenced by no context in any
scanned file is placed in `unusedHandlers` and appears nowhere in
`mostUsedHandlers` (which holds only entries with positive count, sorted
descending, truncated to the top 10). -/
theorem unused_handler_detection (handlers : List HandlerInfo)
    (contexts : List (Option String)) (p : String)
    (hp : p ∈ allHandlerPaths handlers)
    (href : ∀ o ∈ contexts, o ≠ some p) :
    p ∈ unusedHandlers handlers contexts ∧
    ((mostUsedHandlers handlers contexts).all fun e => !(e.1 = p)) = true := by
  have hne : ∀ q ∈ truthyRefs contexts, q ≠ p := by
    intro q hq he
    exact href (some q) (mem_truthyRefs hq) (by rw [he])
  have hseedP : ∀ c, (p, c) ∈ seedUsages handlers → c = 0 :=
    fun c hc => seedUsages_zero_values handlers (p, c) hc
  have hP : ∀ c, (p, c) ∈ usageMap handlers contexts → c = 0 :=
    foldl_applyRef_preserves_zero_at (truthyRefs contexts) hne hseedP
  have hkeys : p ∈ (usageMap handlers contexts).map Prod.fst :=
    foldl_applyRef_mem_keys (truthyRefs contexts) (by simpa [allHandlerPaths] using hp)
  have hget : mapGet (usageMap handlers contexts) p = some 0 :=
    mapGet_eq_some_zero hkeys hP
  constructor
  · exact List.mem_filter.mpr ⟨hp, by simp [hget]⟩
  · rw [List.all_eq_true]
    intro e he
    have he2 : e ∈ sortByCountDesc
        ((usageMap handlers contexts).filter fun h => 0 < h.2) :=
      List.take_subset _ _ he
    have he3 := sortByCountDesc_mem he2
    have hmem := (List.mem_filter.mp he3).1
    have hpos : 0 < e.2 := by simpa using (List.mem_filter.mp he3).2
    by_contra hkeyp
    simp only [Bool.not_eq_true'] at hkeyp
    have hkp : e.1 = p := by simpa using hkeyp
    have : e.2 = 0 := hP e.2 (by rw [← hkp]; exact hmem)
    omega

/-- Witness for C7 on a one-entry catalog whose only handler path is never
referenced. -/
theorem unused_handler_detection_witness :
    "functions/upload.handler" ∈
      unusedHandlers
        [{ filePath := "functions/upload.ts", relativePath := "functions/upload",
           exportedFunctions := ["handler"] }]
        [some "functions/other.handler", none] ∧
    ((mostUsedHandlers
        [{ filePath := "functions/upload.ts", relativePath := "functions/upload",
           exportedFunctions := ["handler"] }]
        [some "functions/other.handler", none]).all
      fun e => !(e.1 = "functions/upload.handler")) = true :=
  unused_handler_detection
    [{ filePath := "functions/upload.ts", relativePath := "functions/upload",
       exportedFunctions := ["handler"] }]
    [some "functions/other.handler", none]
    "functions/upload.handler" (by decide) (by decide)

mutual
/-- Specification-level predicate: does the marker file `sst.config.ts`
occur anywhere in the directory tree reachable by the downward search
(respecting the dot-directory / `node_modules` skip rule)? -/
def dirHasMarker : FSDir → Bool
  | FSDir.mk entries => containsFile entries "sst.config.ts" || entriesHaveMarker entries

/-- `dirHasMarker` over an entry list. -/
def entriesHaveMarker : List FSEntry → Bool
  | [] => false
  | FSEntry.dir name d :: rest =>
    (visitedDirName name && dirHasMarker d) || entriesHaveMarker rest
  | FSEntry.file _ _ :: rest => entriesHaveMarker rest
end

mutual
/-- When no marker file is reachable, the downward root search fails. -/
theorem findSstConfigDir_eq_none (d : FSDir) (h : dirHasMarker d = false) :
    findSstConfigDir d = none := by
  cases d with
  | mk entries =>
    rw [dirHasMarker] at h
    rw [findSstConfigDir]
    rw [Bool.or_eq_false_iff] at h
    rw [if_neg (by simp [h.1])]
    exact findSstConfigInSubdirs_eq_none entries h.2

/-- When no marker file is reachable from any entry, the subdirectory loop
of the downward root search fails. -/
theorem findSstConfigInSubdirs_eq_none (l : List FSEntry)
    (h : entriesHaveMarker l = false) : findSstConfigInSubdirs l = none := by
  match l with
  | [] => rw [findSstConfigInSubdirs]
  | FSEntry.dir name d :: rest =>
    rw [entriesHaveMarker, Bool.or_eq_false_iff, Bool.and_eq_false_iff] at h
    rw [findSstConfigInSubdirs]
    rcases h with ⟨h1, h2⟩
    by_cases hv : visitedDirName name = true
    · rcases h1 with h1 | h1
      · exact absurd hv (by simp [h1])
      · rw [if_pos hv, findSstConfigDir_eq_none d h1]
        exact findSstConfigInSubdirs_eq_none rest h2
    · rw [if_neg hv]
      exact findSstConfigInSubdirs_eq_none rest h2
  | FSEntry.file name ast :: rest =>
    rw [entriesHaveMarker] at h
    rw [findSstConfigInSubdirs]
    exact findSstConfigInSubdirs_eq_none rest h
end

/-- Claim C10: when no project root can be discovered — the marker file
`sst.config.ts` is nowhere in the searched workspace tree, nor in the
process working directory that the degenerate upward loop checks once —
`scanHandlers` returns the empty list (a value, not an error or a null
result): the absence of a root is observable only through the empty
catalog. -/
theorem scanHandlers_empty_when_no_root (workspace : FSDir)
    (cwd : FSDir) (cfg : Option TSConfig)
    (hws : dirHasMarker workspace = false)
    (hcwd : containsFile cwd.entries "sst.config.ts" = false) :
    findworkspaceRoot workspace cwd = none ∧
    scanHandlers workspace cwd cfg = [] := by
  have hroot : findworkspaceRoot workspace cwd = none := by
    rw [findworkspaceRoot, findSstConfigDir_eq_none workspace hws]
    simp [hcwd]
  exact ⟨hroot, by rw [scanHandlers, hroot]⟩

/-- Witness for C10 on a workspace consisting of one marker-free directory,
with a marker-free process working directory. -/
theorem scanHandlers_empty_when_no_root_witness :
    findworkspaceRoot (FSDir.mk [FSEntry.file "main.ts" []])
        (FSDir.mk [FSEntry.file "README.md" []]) = none ∧
    scanHandlers (FSDir.mk [FSEntry.file "main.ts" []])
        (FSDir.mk [FSEntry.file "README.md" []]) none = [] :=
  scanHandlers_empty_when_no_root (FSDir.mk [FSEntry.file "main.ts" []])
    (FSDir.mk [FSEntry.file "README.md" []]) none
    (by rw [dirHasMarker, entriesHaveMarker, entriesHaveMarker]; rfl)
    (by rfl)

end SSTAnalyzer
